import Mathlib

/-!
Verification of the Hatra Suci backend core: the tiered settings cache,
the balance ledger operations (withdrawals and their admin resolution),
the referral placement algorithm, the level-reward engine, and the
registration-deposit activation cascade.

The definitions below are shallow embeddings of the JavaScript source:
  - utils/cache.js            (SettingsCache: two-level settings cache)
  - utils/settingsHelper.js   (getSetting / invalidateSettingCache)
  - controllers/adminController.js
      (updateSettings, updateWithdrawal, verifyRegistrationDeposit)
  - controllers/userController.js
      (createWithdrawal, processLevelRewards, checkLevelRewards,
       spinWheel, register referral placement)
Monetary amounts are rationals, timestamps are naturals (milliseconds),
database collections are lists in insertion order; findOne / updateOne /
findOneAndUpdate act on the first matching element, matching MongoDB
natural order on these unindexed-filter queries.  Audit-only fields
(adminNotes, approvedBy, approvedAt, createdAt timestamps on records)
are omitted: no claim mentions them.
-/

/-- Setting values follow the Mixed schema type: the model covers the JSON
scalar payloads the code actually stores (null, booleans, numbers, strings). -/
inductive SVal where
  | null : SVal
  | bool : Bool → SVal
  | num : ℚ → SVal
  | str : String → SVal
deriving DecidableEq

/-- JavaScript truthiness of a setting value. -/
def SVal.truthy : SVal → Bool
  | SVal.null => false
  | SVal.bool b => b
  | SVal.num q => decide (q ≠ 0)
  | SVal.str s => decide (s ≠ "")

/-- The Settings Store: documents keyed by a unique string, in insertion order. -/
abbrev Store : Type := List (String × SVal)

/-- Settings.findOne on key: value of the first document with that key. -/
def findByKey (store : Store) (key : String) : Option SVal :=
  (store.find? (fun kv => kv.1 = key)).map (fun kv => kv.2)

/-- In-process (L1) memory cache entry: value plus the timestamp written by
Date.now at set time; an entry is fresh for MEMORY_TTL = 60000 ms. -/
abbrev MemCache : Type := List (String × SVal × Nat)

/-- Shared (L2) Redis cache entry: value plus absolute expiry timestamp;
setex stores with REDIS_TTL = 300 s.  The whole level is optional because
getRedis returns null when the Upstash environment variables are unset. -/
abbrev RedisCache : Type := List (String × SVal × Nat)

/-- State of the two-level SettingsCache from utils/cache.js. -/
structure CacheState where
  memory : MemCache
  redis : Option RedisCache
deriving DecidableEq

/-- Association-list update used for Map.prototype.set and Redis setex:
replace the entry for the key, keeping one entry per key. -/
def assocSet (l : List (String × SVal × Nat)) (k : String) (v : SVal) (t : Nat) :
    List (String × SVal × Nat) :=
  (k, v, t) :: l.filter (fun e => e.1 ≠ k)

/-- Association-list lookup by key. -/
def assocGet (l : List (String × SVal × Nat)) (k : String) : Option (SVal × Nat) :=
  (l.find? (fun e => e.1 = k)).map (fun e => e.2)

/-- Association-list deletion by key (Map.prototype.delete and Redis del). -/
def assocDel (l : List (String × SVal × Nat)) (k : String) :
    List (String × SVal × Nat) :=
  l.filter (fun e => e.1 ≠ k)

/-- SettingsCache.set: write the value into the L1 memory cache stamped with
the current time, and into the L2 Redis cache (when available) with an
absolute expiry REDIS_TTL seconds ahead. -/
def cacheSet (c : CacheState) (key : String) (v : SVal) (now : Nat) : CacheState :=
  { memory := assocSet c.memory ("settings:" ++ key) v now
    redis := c.redis.map (fun r => assocSet r ("settings:" ++ key) v (now + 300 * 1000)) }

/-- SettingsCache.get: serve from L1 when the entry is younger than
MEMORY_TTL; otherwise consult L2 when available, and on an unexpired hit
whose payload is truthy, repopulate L1 and serve it.  A miss returns the
JavaScript null, modelled as SVal.null (the source cannot distinguish a
stored null from a miss).  The Upstash client deserializes the stored JSON,
so the if redisValue guard is truthiness of the stored value. -/
def cacheGet (c : CacheState) (key : String) (now : Nat) : SVal × CacheState :=
  match assocGet c.memory ("settings:" ++ key) with
  | some (v, ts) =>
      if now - ts < 60 * 1000 then (v, c) else cacheGetRedis c key now
  | none => cacheGetRedis c key now
where
  /-- The L2 branch of SettingsCache.get. -/
  cacheGetRedis (c : CacheState) (key : String) (now : Nat) : SVal × CacheState :=
    match c.redis with
    | some r =>
        match assocGet r ("settings:" ++ key) with
        | some (v, exp) =>
            if now < exp ∧ v.truthy then
              (v, { c with memory := assocSet c.memory ("settings:" ++ key) v now })
            else (SVal.null, c)
        | none => (SVal.null, c)
    | none => (SVal.null, c)

/-- SettingsCache.delete: drop the key from L1 and, when available, from L2. -/
def cacheDelete (c : CacheState) (key : String) : CacheState :=
  { memory := assocDel c.memory ("settings:" ++ key)
    redis := c.redis.map (fun r => assocDel r ("settings:" ++ key)) }

/-- SettingsCache.clear: empty L1 and, when available, drop every settings
key from L2. -/
def cacheClear (c : CacheState) : CacheState :=
  { memory := [], redis := c.redis.map (fun _ => []) }

/-- The invalidateSettingCache helper from utils/settingsHelper.js. -/
def invalidateSettingCache (c : CacheState) (key : Option String) : CacheState :=
  match key with
  | some k => cacheDelete c k
  | none => cacheClear c

/-- Result of getSetting: the returned value, the cache state after the
call, and whether the Settings Store was queried (observability flag for
the repeated-miss property; the source hits the store exactly on the
cache-miss path). -/
structure GetResult where
  value : SVal
  cache : CacheState
  queried : Bool
deriving DecidableEq

/-- The getSetting helper from utils/settingsHelper.js: serve a non-null
cached value; otherwise query the store, fall back to the caller default
when the key is absent, cache the outcome and return it. -/
def getSetting (store : Store) (c : CacheState) (key : String) (defaultValue : SVal)
    (now : Nat) : GetResult :=
  let g := cacheGet c key now
  if g.1 ≠ SVal.null then
    { value := g.1, cache := g.2, queried := false }
  else
    let value := match findByKey store key with
      | some v => v
      | none => defaultValue
    { value := value, cache := cacheSet g.2 key value now, queried := true }

/-- Single-key mode of the admin updateSettings handler: upsert the value
for the key in the Settings Store.  The handler performs no cache
operation of any kind before returning success. -/
def updateSettingsSingle (store : Store) (key : String) (v : SVal) : Store :=
  match store.find? (fun kv => kv.1 = key) with
  | some _ => store.map (fun kv => if kv.1 = key then (kv.1, v) else kv)
  | none => store ++ [(key, v)]

/-- Batch mode of the admin updateSettings handler: upsert each entry in
order.  As in single mode, no cache level is touched. -/
def updateSettingsBatch (store : Store) (entries : List (String × SVal)) : Store :=
  entries.foldl (fun s kv => updateSettingsSingle s kv.1 kv.2) store

/-- A cache state with an empty memory level and no Redis connection (the
configuration the source runs with when the Upstash variables are unset). -/
def emptyCacheNoRedis : CacheState := { memory := [], redis := none }

/-- Referral slot side. -/
inductive Side where
  | left : Side
  | right : Side
deriving DecidableEq

/-- Deposit status enum. -/
inductive DepStatus where
  | pending : DepStatus
  | approved : DepStatus
  | rejected : DepStatus
deriving DecidableEq

/-- Withdrawal status enum. -/
inductive WStatus where
  | pending : WStatus
  | approved : WStatus
  | rejected : WStatus
  | processing : WStatus
deriving DecidableEq

/-- Transaction status enum. -/
inductive TxStatus where
  | pending : TxStatus
  | completed : TxStatus
  | rejected : TxStatus
  | cancelled : TxStatus
deriving DecidableEq

/-- Transaction type enum. -/
inductive TxType where
  | deposit : TxType
  | withdrawal : TxType
  | referral : TxType
  | dailyReward : TxType
  | bonus : TxType
  | levelReward : TxType
deriving DecidableEq

/-- User document (fields the claims touch). -/
structure UserR where
  id : Nat
  balance : ℚ
  totalDeposits : ℚ
  totalWithdrawals : ℚ
  isActive : Bool
  registrationDepositVerified : Bool
  achievedLevels : List Nat
  createdAt : Nat
  spinWheelLastUsed : Option Nat
  spinWheelCount : Nat
deriving DecidableEq

/-- Deposit document. -/
structure DepositR where
  id : Nat
  user : Nat
  amount : ℚ
  status : DepStatus
  isRegistrationDeposit : Bool
deriving DecidableEq

/-- Withdrawal document. -/
structure WithdrawalR where
  id : Nat
  user : Nat
  amount : ℚ
  status : WStatus
deriving DecidableEq

/-- ReferralEdge document. -/
structure ReferralR where
  referrer : Nat
  referred : Nat
  side : Side
  isActive : Bool
deriving DecidableEq

/-- Transaction document. -/
structure TxR where
  user : Nat
  ttype : TxType
  amount : ℚ
  status : TxStatus
deriving DecidableEq

/-- Database state shared by the handlers. -/
structure World where
  users : List UserR
  deposits : List DepositR
  withdrawals : List WithdrawalR
  referrals : List ReferralR
  transactions : List TxR
deriving DecidableEq

/-- User.findById. -/
def findUser (w : World) (uid : Nat) : Option UserR :=
  w.users.find? (fun u => u.id = uid)

/-- Deposit.findById. -/
def findDeposit (w : World) (did : Nat) : Option DepositR :=
  w.deposits.find? (fun d => d.id = did)

/-- Withdrawal.findById. -/
def findWithdrawal (w : World) (wid : Nat) : Option WithdrawalR :=
  w.withdrawals.find? (fun v => v.id = wid)

/-- Persist a user document (save replaces the document with the same id). -/
def saveUser (l : List UserR) (u : UserR) : List UserR :=
  l.map (fun x => if x.id = u.id then u else x)

/-- Persist a deposit document. -/
def saveDeposit (l : List DepositR) (d : DepositR) : List DepositR :=
  l.map (fun x => if x.id = d.id then d else x)

/-- Persist a withdrawal document. -/
def saveWithdrawal (l : List WithdrawalR) (v : WithdrawalR) : List WithdrawalR :=
  l.map (fun x => if x.id = v.id then v else x)

/-- Referral.findOne on referred: first edge pointing at the user. -/
def firstInbound (l : List ReferralR) (uid : Nat) : Option ReferralR :=
  l.find? (fun r => r.referred = uid)

/-- Referral.updateOne on referred: set isActive on the first edge pointing
at the user (updateOne touches a single document). -/
def setFirstInboundActive (l : List ReferralR) (uid : Nat) (b : Bool) : List ReferralR :=
  match l with
  | [] => []
  | r :: rest =>
      if r.referred = uid then { r with isActive := b } :: rest
      else r :: setFirstInboundActive rest uid b

/-- Referral.countDocuments filtered by referrer, side and isActive true. -/
def countRef (l : List ReferralR) (sponsor : Nat) (sd : Side) : Nat :=
  l.countP (fun r => decide (r.referrer = sponsor ∧ r.side = sd ∧ r.isActive = true))

/-- Whether a transaction matches the findOneAndUpdate filter used by the
deposit and withdrawal resolution handlers: user, type, amount, pending. -/
def txMatches (uid : Nat) (tt : TxType) (amount : ℚ) (t : TxR) : Bool :=
  decide (t.user = uid ∧ t.ttype = tt ∧ t.amount = amount ∧ t.status = TxStatus.pending)

/-- Transaction.findOneAndUpdate: set the status of the first transaction
matching the user, type, amount and pending-status filter. -/
def txUpdateFirst (l : List TxR) (uid : Nat) (tt : TxType) (amount : ℚ)
    (newStatus : TxStatus) : List TxR :=
  match l with
  | [] => []
  | t :: rest =>
      if txMatches uid tt amount t then { t with status := newStatus } :: rest
      else t :: txUpdateFirst rest uid tt amount newStatus

/-- One row of the LEVEL_REWARDS configuration table. -/
structure TierConfig where
  level : Nat
  leftRequired : Nat
  rightRequired : Nat
  reward : ℚ
deriving DecidableEq

/-- The LEVEL_REWARDS table from userController.js. -/
def LEVEL_REWARDS : List TierConfig :=
  [ { level := 0, leftRequired := 0, rightRequired := 0, reward := 0 },
    { level := 1, leftRequired := 1, rightRequired := 1, reward := 11 },
    { level := 2, leftRequired := 6, rightRequired := 6, reward := 67 },
    { level := 3, leftRequired := 12, rightRequired := 12, reward := 89 },
    { level := 4, leftRequired := 25, rightRequired := 25, reward := 167 },
    { level := 5, leftRequired := 50, rightRequired := 50, reward := 278 },
    { level := 6, leftRequired := 75, rightRequired := 75, reward := 389 },
    { level := 7, leftRequired := 120, rightRequired := 120, reward := 556 },
    { level := 8, leftRequired := 160, rightRequired := 160, reward := 1333 },
    { level := 9, leftRequired := 220, rightRequired := 220, reward := 1667 },
    { level := 10, leftRequired := 300, rightRequired := 300, reward := 2500 },
    { level := 11, leftRequired := 500, rightRequired := 500, reward := 8889 },
    { level := 12, leftRequired := 1500, rightRequired := 1500, reward := 50000 } ]

/-- Running state of the tier loop in processLevelRewards: the in-memory
user fields being mutated, the newlyAchievedLevels accumulator, and the
level_reward transactions created inside the loop. -/
structure RewardState where
  balance : ℚ
  achievedLevels : List Nat
  newLevels : List (Nat × ℚ)
  txns : List TxR
deriving DecidableEq

/-- One iteration of the tier loop: skip the zero tier, skip tiers already
in achievedLevels, award a tier whose side requirements are met (credit
the balance, push the level, record a completed level_reward transaction). -/
def tierStep (uid leftCount rightCount : Nat) (st : RewardState) (t : TierConfig) :
    RewardState :=
  if t.level = 0 ∨ t.reward = 0 then st
  else if t.level ∈ st.achievedLevels then st
  else if t.leftRequired ≤ leftCount ∧ t.rightRequired ≤ rightCount then
    { balance := st.balance + t.reward
      achievedLevels := st.achievedLevels ++ [t.level]
      newLevels := st.newLevels ++ [(t.level, t.reward)]
      txns := st.txns ++ [{ user := uid, ttype := TxType.levelReward,
                            amount := t.reward, status := TxStatus.completed }] }
  else st

/-- The whole tier loop of processLevelRewards, starting from the loaded
user document. -/
def runTierLoop (uid leftCount rightCount : Nat) (u : UserR) : RewardState :=
  LEVEL_REWARDS.foldl (tierStep uid leftCount rightCount)
    { balance := u.balance, achievedLevels := u.achievedLevels,
      newLevels := [], txns := [] }

/-- Result object returned by processLevelRewards. -/
structure PlrResult where
  leftCount : Nat
  rightCount : Nat
  achievedLevels : List Nat
  newLevels : List (Nat × ℚ)
  balance : ℚ
deriving DecidableEq

/-- The processLevelRewards function from userController.js: count active
edges per side, run the tier loop, and persist the user plus the created
transactions only when at least one tier was newly achieved (the source
calls user.save only then, and creates transactions only inside the award
branch).  A missing user yields an error result and no state change. -/
def processLevelRewards (w : World) (uid : Nat) : World × Option PlrResult :=
  match findUser w uid with
  | none => (w, none)
  | some u =>
      let leftCount := countRef w.referrals uid Side.left
      let rightCount := countRef w.referrals uid Side.right
      let st := runTierLoop uid leftCount rightCount u
      let w1 :=
        if st.newLevels = [] then w
        else { w with
                 users := saveUser w.users
                   { u with balance := st.balance, achievedLevels := st.achievedLevels }
                 transactions := w.transactions ++ st.txns }
      (w1, some { leftCount := leftCount, rightCount := rightCount,
                  achievedLevels := st.achievedLevels, newLevels := st.newLevels,
                  balance := st.balance })

/-- The checkLevelRewards handler from userController.js; its body is a
verbatim copy of processLevelRewards operating on the authenticated user. -/
def checkLevelRewards (w : World) (uid : Nat) : World × Option PlrResult :=
  match findUser w uid with
  | none => (w, none)
  | some u =>
      let leftCount := countRef w.referrals uid Side.left
      let rightCount := countRef w.referrals uid Side.right
      let st := runTierLoop uid leftCount rightCount u
      let w1 :=
        if st.newLevels = [] then w
        else { w with
                 users := saveUser w.users
                   { u with balance := st.balance, achievedLevels := st.achievedLevels }
                 transactions := w.transactions ++ st.txns }
      (w1, some { leftCount := leftCount, rightCount := rightCount,
                  achievedLevels := st.achievedLevels, newLevels := st.newLevels,
                  balance := st.balance })

/-- Outcome reported by verifyRegistrationDeposit (HTTP classes). -/
inductive VerifyOutcome where
  | missing : VerifyOutcome
  | notRegistration : VerifyOutcome
  | userError : VerifyOutcome
  | done : VerifyOutcome
deriving DecidableEq

/-- The verifyRegistrationDeposit handler from adminController.js.  The
deposit is looked up and its status overwritten with the request status
without any check of the current status; on approval the handler credits
the user, sets the activation flags, flips the first inbound referral edge
active, runs processLevelRewards for the referrer of that edge, and marks
the first matching pending deposit transaction completed; on rejection it
clears the flags, forces the edge inactive and marks the transaction
rejected.  A missing user document makes the source throw after the
deposit was already saved (modelled as userError with the deposit saved). -/
def verifyRegistrationDeposit (w : World) (depId : Nat) (status : DepStatus) :
    VerifyOutcome × World :=
  match findDeposit w depId with
  | none => (VerifyOutcome.missing, w)
  | some d =>
      if d.isRegistrationDeposit = false then (VerifyOutcome.notRegistration, w)
      else
        let d1 := { d with status := status }
        let w1 := { w with deposits := saveDeposit w.deposits d1 }
        match findUser w1 d.user with
        | none => (VerifyOutcome.userError, w1)
        | some u =>
            if status = DepStatus.approved then
              let u1 := { u with isActive := true, registrationDepositVerified := true,
                                 balance := u.balance + d.amount,
                                 totalDeposits := u.totalDeposits + d.amount }
              let w2 := { w1 with users := saveUser w1.users u1 }
              let w3 := { w2 with referrals := setFirstInboundActive w2.referrals d.user true }
              let w4 :=
                match firstInbound w3.referrals d.user with
                | some r => (processLevelRewards w3 r.referrer).1
                | none => w3
              let tx5 := txUpdateFirst w4.transactions d.user TxType.deposit d.amount
                TxStatus.completed
              let w5 := { w4 with transactions := tx5 }
              (VerifyOutcome.done, w5)
            else if status = DepStatus.rejected then
              let u1 := { u with isActive := false, registrationDepositVerified := false }
              let w2 := { w1 with users := saveUser w1.users u1 }
              let w3 := { w2 with referrals := setFirstInboundActive w2.referrals d.user false }
              let tx4 := txUpdateFirst w3.transactions d.user TxType.deposit d.amount
                TxStatus.rejected
              let w4 := { w3 with transactions := tx4 }
              (VerifyOutcome.done, w4)
            else (VerifyOutcome.done, w1)

/-- Settings values consumed by createWithdrawal, as resolved by the
getSettings helper with its documented defaults. -/
structure WithdrawSettings where
  withdrawalsEnabled : Bool
  withdrawLockAmount : ℚ
  withdrawLockDays : ℚ
deriving DecidableEq

/-- Outcome reported by createWithdrawal. -/
inductive CWOutcome where
  | disabled : CWOutcome
  | lockError : CWOutcome
  | insufficient : CWOutcome
  | userError : CWOutcome
  | created : CWOutcome
deriving DecidableEq

/-- Days elapsed since account creation: Math.floor of the millisecond
difference divided by one day (the handlers run with now at or after
createdAt; natural subtraction matches Math.floor on that domain). -/
def accountAgeDays (createdAt now : Nat) : Nat :=
  (now - createdAt) / (1000 * 60 * 60 * 24)

/-- The createWithdrawal handler from userController.js: reject when
withdrawals are disabled; inside the lock period reject any request
dipping into the locked amount; reject when the amount exceeds the
balance; otherwise create the pending withdrawal, debit the balance
optimistically and append a pending withdrawal transaction.  The fresh
withdrawal id is the next index, mirroring unique generated ids. -/
def createWithdrawal (w : World) (uid : Nat) (amount : ℚ) (s : WithdrawSettings)
    (now : Nat) : CWOutcome × World :=
  if s.withdrawalsEnabled = false then (CWOutcome.disabled, w)
  else
    match findUser w uid with
    | none => (CWOutcome.userError, w)
    | some u =>
        let accountAge := accountAgeDays u.createdAt now
        let isWithinLockPeriod := (accountAge : ℚ) < s.withdrawLockDays
        let availableBalance :=
          if isWithinLockPeriod then max 0 (u.balance - s.withdrawLockAmount) else u.balance
        if isWithinLockPeriod ∧ availableBalance < amount then (CWOutcome.lockError, w)
        else if u.balance < amount then (CWOutcome.insufficient, w)
        else
          let rec1 : WithdrawalR :=
            { id := w.withdrawals.length, user := uid, amount := amount,
              status := WStatus.pending }
          let u1 := { u with balance := u.balance - amount }
          (CWOutcome.created,
           { w with withdrawals := w.withdrawals ++ [rec1],
                    users := saveUser w.users u1,
                    transactions := w.transactions ++
                      [{ user := uid, ttype := TxType.withdrawal, amount := amount,
                         status := TxStatus.pending }] })

/-- Outcome reported by updateWithdrawal. -/
inductive UWOutcome where
  | missing : UWOutcome
  | userError : UWOutcome
  | done : UWOutcome
deriving DecidableEq

/-- The updateWithdrawal handler from adminController.js: overwrite the
withdrawal status; on rejection credit the amount back to the user and
mark the first matching pending withdrawal transaction rejected; on
approval add the amount to totalWithdrawals and mark it completed. -/
def updateWithdrawal (w : World) (wid : Nat) (status : WStatus) :
    UWOutcome × World :=
  match findWithdrawal w wid with
  | none => (UWOutcome.missing, w)
  | some v =>
      let v1 := { v with status := status }
      let w1 := { w with withdrawals := saveWithdrawal w.withdrawals v1 }
      if status = WStatus.rejected then
        match findUser w1 v.user with
        | none => (UWOutcome.userError, w1)
        | some u =>
            let u1 := { u with balance := u.balance + v.amount }
            let w2 := { w1 with users := saveUser w1.users u1 }
            let tx2 := txUpdateFirst w2.transactions v.user TxType.withdrawal v.amount
              TxStatus.rejected
            (UWOutcome.done, { w2 with transactions := tx2 })
      else if status = WStatus.approved then
        match findUser w1 v.user with
        | none => (UWOutcome.userError, w1)
        | some u =>
            let u1 := { u with totalWithdrawals := u.totalWithdrawals + v.amount }
            let w2 := { w1 with users := saveUser w1.users u1 }
            let tx2 := txUpdateFirst w2.transactions v.user TxType.withdrawal v.amount
              TxStatus.completed
            (UWOutcome.done, { w2 with transactions := tx2 })
      else (UWOutcome.done, w1)

/-- Side assigned by the register handler: left when the count of existing
edges of the sponsor is even, right when it is odd; the count has no
filter on isActive. -/
def sideForCount (totalCount : Nat) : Side :=
  if totalCount % 2 = 0 then Side.left else Side.right

/-- Referral placement as performed inside the register handler: count the
edges whose referrer is the sponsor, pick the side from the parity of that
count, and append the new edge inactive. -/
def placeReferral (l : List ReferralR) (sponsor referred : Nat) : List ReferralR :=
  let totalCount := l.countP (fun r => decide (r.referrer = sponsor))
  l ++ [{ referrer := sponsor, referred := referred, side := sideForCount totalCount,
          isActive := false }]

/-- Events affecting the referral edges of one sponsor: a new registration
with that referral code (placement), or the activation of a referred user
by deposit verification. -/
inductive RefOp where
  | place : Nat → RefOp
  | activate : Nat → RefOp
deriving DecidableEq

/-- Apply one referral event. -/
def refStep (sponsor : Nat) (l : List ReferralR) : RefOp → List ReferralR
  | RefOp.place u => placeReferral l sponsor u
  | RefOp.activate u => setFirstInboundActive l u true

/-- Run a sequence of referral events for one sponsor starting from no edges. -/
def runRefOps (sponsor : Nat) (ops : List RefOp) : List ReferralR :=
  ops.foldl (refStep sponsor) []

/-- Resolution of a numeric setting through the JavaScript or-default
idiom: an absent document or a zero value falls back to the default
(non-numeric payloads for the reward bounds are outside the model; the
source would propagate NaN). -/
def jsOrQ (o : Option ℚ) (d : ℚ) : ℚ :=
  match o with
  | none => d
  | some q => if q = 0 then d else q

/-- Rounding of toFixed(4) followed by parseFloat: nearest multiple of
1/10000, halves away from zero on the positive values produced here. -/
def round4 (x : ℚ) : ℚ :=
  (round (x * 10000) : ℚ) / 10000

/-- Whether the once-per-day gate lets the spin proceed: no recorded spin,
or the last spin strictly before the start of the current day. -/
def spinGateOpen (lastUsed : Option Nat) (startOfToday : Nat) : Bool :=
  match lastUsed with
  | none => true
  | some ls => decide (ls < startOfToday)

/-- The spinWheel handler from userController.js.  The client-supplied
reward field is destructured from the body and never used; the credited
reward is generated server-side from the settings bounds (defaults 0.5 and
0.8 through the or-default idiom) and the random draw r of Math.random.
On success the reward is credited, the spin timestamp and count updated,
and a completed daily_reward transaction appended. -/
def spinWheel (requestedReward : ℚ) (u : UserR) (txns : List TxR)
    (minSetting maxSetting : Option ℚ) (r : ℚ) (now startOfToday : Nat) :
    Option (ℚ × UserR × List TxR) :=
  if spinGateOpen u.spinWheelLastUsed startOfToday = false then none
  else
    let minReward := jsOrQ minSetting (1 / 2)
    let maxReward := jsOrQ maxSetting (4 / 5)
    let reward := round4 (minReward + r * (maxReward - minReward))
    let u1 := { u with balance := u.balance + reward,
                       spinWheelLastUsed := some now,
                       spinWheelCount := u.spinWheelCount + 1 }
    some (reward, u1,
          txns ++ [{ user := u.id, ttype := TxType.dailyReward, amount := reward,
                     status := TxStatus.completed }])

/-- One level-reward evaluation in a history: the referral edges current at
that moment, the target sponsor, and which trigger ran (the internal
processLevelRewards cascade step or the user-initiated checkLevelRewards). -/
inductive EvalOp where
  | internal : Nat → List ReferralR → EvalOp
  | userCheck : Nat → List ReferralR → EvalOp
deriving DecidableEq

/-- Apply one evaluation of a history: install the edges current at that
moment, then run the triggered function for its target. -/
def evalStep (w : World) : EvalOp → World
  | EvalOp.internal t refs => (processLevelRewards { w with referrals := refs } t).1
  | EvalOp.userCheck t refs => (checkLevelRewards { w with referrals := refs } t).1

/-- Run a history of level-reward evaluations. -/
def runEvalSeq (w : World) (ops : List EvalOp) : World :=
  ops.foldl evalStep w

/-- Claim C1: the admin settings-update operation must invalidate both
cache levels for every written key before returning success, so a get
issued after the update returns the newly written value.  The code never
touches either cache level: after caching depositsEnabled = true, updating
it to false and reading it back one second later (well inside the 60 s
memory freshness window) still returns true while the store holds false. -/
theorem updateSettings_stale_cache_read :
    (getSetting (updateSettingsSingle [("depositsEnabled", SVal.bool true)]
        "depositsEnabled" (SVal.bool false))
      (getSetting [("depositsEnabled", SVal.bool true)] emptyCacheNoRedis
        "depositsEnabled" (SVal.bool true) 0).cache
      "depositsEnabled" (SVal.bool true) 1000).value = SVal.bool true ∧
    findByKey (updateSettingsSingle [("depositsEnabled", SVal.bool true)]
        "depositsEnabled" (SVal.bool false)) "depositsEnabled" = some (SVal.bool false) := by
  decide

/-- World in which the single registration deposit (id 0, amount 60, user 1)
has already been resolved: it is approved, the user was activated and
credited once, and the deposit transaction is already completed. -/
def regWorldApproved : World :=
  { users := [{ id := 1, balance := 60, totalDeposits := 60, totalWithdrawals := 0,
                isActive := true, registrationDepositVerified := true, achievedLevels := [],
                createdAt := 0, spinWheelLastUsed := none, spinWheelCount := 0 }],
    deposits := [{ id := 0, user := 1, amount := 60, status := DepStatus.approved,
                   isRegistrationDeposit := true }],
    withdrawals := [], referrals := [],
    transactions := [{ user := 1, ttype := TxType.deposit, amount := 60,
                       status := TxStatus.completed }] }

/-- Claim C2: verifying an already-resolved registration deposit again
must fail with a Conflict and leave all state unchanged.  The handler has
no guard on the current deposit status: re-approving the already-approved
deposit of regWorldApproved succeeds and credits the balance of user 1 a
second time, from 60 to 120. -/
theorem verifyRegistration_double_approval_credits_again :
    (findDeposit regWorldApproved 0).map (fun d => d.status) = some DepStatus.approved ∧
    (findUser regWorldApproved 1).map (fun u => u.balance) = some 60 ∧
    (verifyRegistrationDeposit regWorldApproved 0 DepStatus.approved).1 = VerifyOutcome.done ∧
    (findUser (verifyRegistrationDeposit regWorldApproved 0 DepStatus.approved).2 1).map
      (fun u => u.balance) = some 120 := by
  norm_num [regWorldApproved, verifyRegistrationDeposit, findDeposit, findUser, saveDeposit,
    saveUser, firstInbound, setFirstInboundActive, txUpdateFirst, txMatches, List.find?]

/-- Claim C9, counterexample: with a null caller default and an absent key,
the second consecutive get queries the store again, because the cached null
default is indistinguishable from a cache miss in the cached-value check of
getSetting. -/
theorem getSetting_null_default_requeries :
    (getSetting [] emptyCacheNoRedis "k" SVal.null 0).queried = true ∧
    (getSetting [] (getSetting [] emptyCacheNoRedis "k" SVal.null 0).cache
      "k" SVal.null 0).queried = true := by
  decide

/-- Claim C9, amended: for a key absent from the Settings Store and a
non-null caller default, a cache-backed get returns the default and caches
it, and the second consecutive get with the same default serves the cached
default without querying the store. -/
theorem getSetting_caches_default (store : Store) (key : String) (d : SVal) (now : Nat)
    (habs : findByKey store key = none) (hd : d ≠ SVal.null) :
    (getSetting store emptyCacheNoRedis key d now).value = d ∧
    (getSetting store emptyCacheNoRedis key d now).queried = true ∧
    (getSetting store (getSetting store emptyCacheNoRedis key d now).cache key d now).value
      = d ∧
    (getSetting store (getSetting store emptyCacheNoRedis key d now).cache key d now).queried
      = false := by
  simp only [getSetting, cacheGet, emptyCacheNoRedis, assocGet, List.find?_nil, Option.map_none,
    cacheGet.cacheGetRedis, habs, cacheSet, assocSet, List.filter_nil]
  simp [hd]

/-- Witness for getSetting_caches_default at the empty store, key k and
default false. -/
theorem getSetting_caches_default_witness :
    findByKey [] "k" = none ∧ SVal.bool false ≠ SVal.null ∧
    ((getSetting [] emptyCacheNoRedis "k" (SVal.bool false) 5).value = SVal.bool false ∧
     (getSetting [] emptyCacheNoRedis "k" (SVal.bool false) 5).queried = true ∧
     (getSetting [] (getSetting [] emptyCacheNoRedis "k" (SVal.bool false) 5).cache "k"
        (SVal.bool false) 5).value = SVal.bool false ∧
     (getSetting [] (getSetting [] emptyCacheNoRedis "k" (SVal.bool false) 5).cache "k"
        (SVal.bool false) 5).queried = false) :=
  ⟨by decide, by decide, getSetting_caches_default [] "k" (SVal.bool false) 5 (by decide) (by decide)⟩

lemma findUser_id {w : World} {uid : Nat} {u : UserR} (h : findUser w uid = some u) :
    u.id = uid := by
  have h2 := List.find?_some h
  simpa using h2

lemma saveUser_cons (x : UserR) (rest : List UserR) (u1 : UserR) :
    saveUser (x :: rest) u1 = (if x.id = u1.id then u1 else x) :: saveUser rest u1 := by
  simp [saveUser]

lemma find?_saveUser_self {l : List UserR} {uid : Nat} {u u1 : UserR}
    (h : l.find? (fun x => x.id = uid) = some u) (h1 : u1.id = uid) :
    (saveUser l u1).find? (fun x => x.id = uid) = some u1 := by
  induction l with
  | nil => simp at h
  | cons x rest ih =>
      rw [saveUser_cons]
      by_cases hx : x.id = uid
      · have hcond : x.id = u1.id := by rw [h1]; exact hx
        rw [if_pos hcond]
        exact List.find?_cons_of_pos _ (by simpa using h1)
      · have hcond : ¬ x.id = u1.id := by rw [h1]; exact hx
        rw [if_neg hcond]
        rw [List.find?_cons_of_neg _ (by simpa using hx)] at h ⊢
        exact ih h

lemma find?_saveUser_other {l : List UserR} {uid : Nat} {u1 : UserR}
    (h : uid ≠ u1.id) :
    (saveUser l u1).find? (fun x => x.id = uid) = l.find? (fun x => x.id = uid) := by
  induction l with
  | nil => simp [saveUser]
  | cons x rest ih =>
      rw [saveUser_cons]
      by_cases hx : x.id = u1.id
      · have hxu : ¬ x.id = uid := by rw [hx]; exact fun hh => h hh.symm
        have hu1 : ¬ u1.id = uid := fun hh => h hh.symm
        rw [if_pos hx, List.find?_cons_of_neg _ (by simpa using hu1),
          List.find?_cons_of_neg _ (by simpa using hxu)]
        exact ih
      · rw [if_neg hx]
        by_cases hxx : x.id = uid
        · rw [List.find?_cons_of_pos _ (by simpa using hxx),
            List.find?_cons_of_pos _ (by simpa using hxx)]
        · rw [List.find?_cons_of_neg _ (by simpa using hxx),
            List.find?_cons_of_neg _ (by simpa using hxx)]
          exact ih

lemma find?_append_none {α : Type} {p : α → Bool} {l1 l2 : List α}
    (h : l1.find? p = none) : (l1 ++ l2).find? p = l2.find? p := by
  induction l1 with
  | nil => simp
  | cons x rest ih =>
      have hx : ¬ p x = true := by
        intro hpx
        exact (by simpa [hpx] using List.find?_eq_none.mp h x (by simp))
      have hrest : rest.find? p = none := by
        apply List.find?_eq_none.mpr
        intro a ha
        exact List.find?_eq_none.mp h a (by simp [ha])
      rw [List.cons_append, List.find?_cons_of_neg _ hx]
      exact ih hrest

lemma txUpdateFirst_append {l1 : List TxR} {t0 : TxR} (l2 : List TxR)
    {uid : Nat} {tt : TxType} {amount : ℚ} (ns : TxStatus)
    (h1 : l1.all (fun t => !(txMatches uid tt amount t)) = true)
    (h0 : txMatches uid tt amount t0 = true) :
    txUpdateFirst (l1 ++ t0 :: l2) uid tt amount ns
      = l1 ++ ({ t0 with status := ns } :: l2) := by
  induction l1 with
  | nil => simp [txUpdateFirst, h0]
  | cons x rest ih =>
      rw [List.all_cons, Bool.and_eq_true] at h1
      have hx : ¬ txMatches uid tt amount x = true := by
        simpa using h1.1
      rw [List.cons_append, txUpdateFirst, if_neg hx, ih h1.2, List.cons_append]

lemma firstInbound_setFirst {l : List ReferralR} {uid : Nat} {e : ReferralR} (b : Bool)
    (h : firstInbound l uid = some e) :
    firstInbound (setFirstInboundActive l uid b) uid = some { e with isActive := b } := by
  induction l with
  | nil => simp [firstInbound] at h
  | cons r rest ih =>
      by_cases hr : r.referred = uid
      · rw [firstInbound, List.find?_cons_of_pos _ (by simpa using hr)] at h
        rw [setFirstInboundActive, if_pos hr, firstInbound,
          List.find?_cons_of_pos _ (by simpa using hr)]
        rw [Option.some_inj] at h
        rw [h]
      · rw [firstInbound, List.find?_cons_of_neg _ (by simpa using hr)] at h
        rw [setFirstInboundActive, if_neg hr, firstInbound,
          List.find?_cons_of_neg _ (by simpa using hr)]
        exact ih h

lemma countRef_setFirst_plus_one {l : List ReferralR} {uid : Nat} {e : ReferralR}
    (h : firstInbound l uid = some e) (hact : e.isActive = false) :
    countRef (setFirstInboundActive l uid true) e.referrer e.side
      = countRef l e.referrer e.side + 1 := by
  induction l with
  | nil => simp [firstInbound] at h
  | cons r rest ih =>
      by_cases hr : r.referred = uid
      · rw [firstInbound, List.find?_cons_of_pos _ (by simpa using hr)] at h
        rw [Option.some_inj] at h
        subst h
        rw [setFirstInboundActive, if_pos hr]
        rw [countRef, countRef, List.countP_cons, List.countP_cons]
        simp [hact]
      · rw [firstInbound, List.find?_cons_of_neg _ (by simpa using hr)] at h
        rw [setFirstInboundActive, if_neg hr]
        rw [countRef, countRef, List.countP_cons, List.countP_cons]
        have := ih h
        rw [countRef, countRef] at this
        omega

lemma tierStep_cases (uid lc rc : Nat) (st : RewardState) (t : TierConfig) :
    tierStep uid lc rc st t = st ∨
    (tierStep uid lc rc st t
      = { balance := st.balance + t.reward
          achievedLevels := st.achievedLevels ++ [t.level]
          newLevels := st.newLevels ++ [(t.level, t.reward)]
          txns := st.txns ++ [{ user := uid, ttype := TxType.levelReward,
                                amount := t.reward, status := TxStatus.completed }] }
      ∧ t.level ∉ st.achievedLevels ∧ t.level ≠ 0 ∧ t.reward ≠ 0) := by
  rw [tierStep]
  by_cases h1 : t.level = 0 ∨ t.reward = 0
  · left; rw [if_pos h1]
  · rw [if_neg h1]
    by_cases h2 : t.level ∈ st.achievedLevels
    · left; rw [if_pos h2]
    · rw [if_neg h2]
      by_cases h3 : t.leftRequired ≤ lc ∧ t.rightRequired ≤ rc
      · right
        push_neg at h1
        exact ⟨by rw [if_pos h3], h2, h1.1, h1.2⟩
      · left; rw [if_neg h3]

lemma tierFold_achieved (tiers : List TierConfig) (uid lc rc : Nat) (st : RewardState) :
    ∃ Δ, (tiers.foldl (tierStep uid lc rc) st).achievedLevels = st.achievedLevels ++ Δ ∧
      ∀ x ∈ Δ, ∃ t ∈ tiers, x = t.level ∧ t.level ≠ 0 := by
  induction tiers generalizing st with
  | nil => exact ⟨[], by simp⟩
  | cons t0 rest ih =>
      rw [List.foldl_cons]
      rcases tierStep_cases uid lc rc st t0 with heq | ⟨heq, _, hlv, _⟩
      · rcases ih (tierStep uid lc rc st t0) with ⟨Δ, hΔ, hmem⟩
        refine ⟨Δ, by rw [hΔ, heq], ?_⟩
        intro x hx
        rcases hmem x hx with ⟨t, ht, hxt⟩
        exact ⟨t, List.mem_cons_of_mem _ ht, hxt⟩
      · rcases ih (tierStep uid lc rc st t0) with ⟨Δ, hΔ, hmem⟩
        refine ⟨t0.level :: Δ, ?_, ?_⟩
        · rw [hΔ, heq]
          simp
        · intro x hx
          rcases List.mem_cons.mp hx with rfl | hx2
          · exact ⟨t0, List.mem_cons_self _ _, rfl, hlv⟩
          · rcases hmem x hx2 with ⟨t, ht, hxt⟩
            exact ⟨t, List.mem_cons_of_mem _ ht, hxt⟩

lemma tierFold_mem_mono {tiers : List TierConfig} {uid lc rc : Nat} {st : RewardState}
    {x : Nat} (hx : x ∈ st.achievedLevels) :
    x ∈ (tiers.foldl (tierStep uid lc rc) st).achievedLevels := by
  rcases tierFold_achieved tiers uid lc rc st with ⟨Δ, hΔ, _⟩
  rw [hΔ]
  exact List.mem_append_left _ hx

lemma tierFold_covers {tiers : List TierConfig} (uid lc rc : Nat) (st : RewardState) :
    ∀ t ∈ tiers, t.level ≠ 0 → t.reward ≠ 0 → t.leftRequired ≤ lc → t.rightRequired ≤ rc →
      t.level ∈ (tiers.foldl (tierStep uid lc rc) st).achievedLevels := by
  induction tiers generalizing st with
  | nil => intro t ht; simp at ht
  | cons t0 rest ih =>
      intro t ht h0 hrw hl hr
      rcases List.mem_cons.mp ht with rfl | ht2
      · rw [List.foldl_cons]
        apply tierFold_mem_mono
        rw [tierStep, if_neg (by push_neg; exact ⟨h0, hrw⟩)]
        by_cases h2 : t.level ∈ st.achievedLevels
        · rw [if_pos h2]; exact h2
        · rw [if_neg h2, if_pos ⟨hl, hr⟩]
          simp
      · rw [List.foldl_cons]
        exact ih (tierStep uid lc rc st t0) t ht2 h0 hrw hl hr

lemma tierFold_stable {tiers : List TierConfig} (uid lc rc : Nat) (st : RewardState)
    (h : ∀ t ∈ tiers, t.level ≠ 0 → t.reward ≠ 0 → t.leftRequired ≤ lc →
      t.rightRequired ≤ rc → t.level ∈ st.achievedLevels) :
    tiers.foldl (tierStep uid lc rc) st = st := by
  induction tiers with
  | nil => simp
  | cons t0 rest ih =>
      have hstep : tierStep uid lc rc st t0 = st := by
        rw [tierStep]
        by_cases h1 : t0.level = 0 ∨ t0.reward = 0
        · rw [if_pos h1]
        · rw [if_neg h1]
          push_neg at h1
          by_cases h2 : t0.level ∈ st.achievedLevels
          · rw [if_pos h2]
          · rw [if_neg h2]
            rw [if_neg]
            intro hh
            exact h2 (h t0 (List.mem_cons_self _ _) h1.1 h1.2 hh.1 hh.2)
      rw [List.foldl_cons, hstep]
      exact ih (fun t ht => h t (List.mem_cons_of_mem _ ht))

lemma tierFold_no_new_eq {tiers : List TierConfig} (uid lc rc : Nat) (st : RewardState) :
    ∃ P, (tiers.foldl (tierStep uid lc rc) st).newLevels = st.newLevels ++ P ∧
      (P = [] → tiers.foldl (tierStep uid lc rc) st = st) := by
  induction tiers generalizing st with
  | nil => exact ⟨[], by simp, by simp⟩
  | cons t0 rest ih =>
      rw [List.foldl_cons]
      rcases tierStep_cases uid lc rc st t0 with heq | ⟨heq, _, _, _⟩
      · rcases ih (tierStep uid lc rc st t0) with ⟨P, hP, hnil⟩
        refine ⟨P, by rw [hP, heq], ?_⟩
        intro hP0
        rw [hnil hP0, heq]
      · rcases ih (tierStep uid lc rc st t0) with ⟨P, hP, hnil⟩
        refine ⟨(t0.level, t0.reward) :: P, ?_, ?_⟩
        · rw [hP, heq]
          simp
        · intro hc
          exact absurd hc (List.cons_ne_nil _ _)

lemma tierFold_txns_level_reward (tiers : List TierConfig) (uid lc rc : Nat)
    (st : RewardState) :
    ∃ L, (tiers.foldl (tierStep uid lc rc) st).txns = st.txns ++ L ∧
      L.all (fun t => decide (t.ttype = TxType.levelReward)) = true := by
  induction tiers generalizing st with
  | nil => exact ⟨[], by simp, by simp⟩
  | cons t0 rest ih =>
      rw [List.foldl_cons]
      rcases tierStep_cases uid lc rc st t0 with heq | ⟨heq, _, _, _⟩
      · rcases ih (tierStep uid lc rc st t0) with ⟨L, hL, hall⟩
        exact ⟨L, by rw [hL, heq], hall⟩
      · rcases ih (tierStep uid lc rc st t0) with ⟨L, hL, hall⟩
        refine ⟨{ user := uid, ttype := TxType.levelReward, amount := t0.reward,
                  status := TxStatus.completed } :: L, ?_, ?_⟩
        · rw [hL, heq]
          simp
        · simpa using hall

/-- Tier-loop state computed by processLevelRewards for a loaded user. -/
def plrSt (w : World) (uid : Nat) (u : UserR) : RewardState :=
  runTierLoop uid (countRef w.referrals uid Side.left)
    (countRef w.referrals uid Side.right) u

/-- World produced by processLevelRewards for a loaded user. -/
def plrWorld (w : World) (uid : Nat) (u : UserR) : World :=
  if (plrSt w uid u).newLevels = [] then w
  else { w with
           users := saveUser w.users
             { u with balance := (plrSt w uid u).balance,
                      achievedLevels := (plrSt w uid u).achievedLevels },
           transactions := w.transactions ++ (plrSt w uid u).txns }

/-- Result object produced by processLevelRewards for a loaded user. -/
def plrRes (w : World) (uid : Nat) (u : UserR) : PlrResult :=
  { leftCount := countRef w.referrals uid Side.left,
    rightCount := countRef w.referrals uid Side.right,
    achievedLevels := (plrSt w uid u).achievedLevels,
    newLevels := (plrSt w uid u).newLevels,
    balance := (plrSt w uid u).balance }

lemma plr_none {w : World} {uid : Nat} (hu : findUser w uid = none) :
    processLevelRewards w uid = (w, none) := by
  rw [processLevelRewards, hu]

lemma plr_some {w : World} {uid : Nat} {u : UserR} (hu : findUser w uid = some u) :
    processLevelRewards w uid = (plrWorld w uid u, some (plrRes w uid u)) := by
  rw [processLevelRewards, hu]
  rfl

lemma clr_eq_plr (w : World) (uid : Nat) :
    checkLevelRewards w uid = processLevelRewards w uid := by
  rw [checkLevelRewards, processLevelRewards]

attribute [irreducible] plrSt plrWorld plrRes

lemma plrWorld_referrals (w : World) (uid : Nat) (u : UserR) :
    (plrWorld w uid u).referrals = w.referrals := by
  rw [plrWorld]
  by_cases h : (plrSt w uid u).newLevels = []
  · rw [if_pos h]
  · rw [if_neg h]

lemma runTierLoop_stable (uid lc rc : Nat) (u2 : UserR)
    (h : ∀ t ∈ LEVEL_REWARDS, t.level ≠ 0 → t.reward ≠ 0 → t.leftRequired ≤ lc →
      t.rightRequired ≤ rc → t.level ∈ u2.achievedLevels) :
    runTierLoop uid lc rc u2
      = { balance := u2.balance, achievedLevels := u2.achievedLevels,
          newLevels := [], txns := [] } := by
  rw [runTierLoop]
  exact tierFold_stable uid lc rc _ h

lemma runTierLoop_covers (uid lc rc : Nat) (u : UserR) :
    ∀ t ∈ LEVEL_REWARDS, t.level ≠ 0 → t.reward ≠ 0 → t.leftRequired ≤ lc →
      t.rightRequired ≤ rc → t.level ∈ (runTierLoop uid lc rc u).achievedLevels := by
  intro t ht h0 hrw hl hr
  rw [runTierLoop]
  exact tierFold_covers _ _ _ _ t ht h0 hrw hl hr

lemma plrSt_second (w : World) (uid : Nat) (u u2 : UserR)
    (hach : u2.achievedLevels = (plrSt w uid u).achievedLevels) :
    plrSt (plrWorld w uid u) uid u2
      = { balance := u2.balance, achievedLevels := u2.achievedLevels,
          newLevels := [], txns := [] } := by
  rw [plrSt, plrWorld_referrals]
  apply runTierLoop_stable
  intro t ht h0 hrw hl hr
  rw [hach, plrSt]
  exact runTierLoop_covers _ _ _ _ t ht h0 hrw hl hr

/-- Claim C3: running the level-reward evaluation twice in a row with no
referral-edge changes in between yields no new awards on the second call:
the second run returns an empty newlyAchievedLevels list and leaves the
world (hence the sponsor balance and achievedLevels) exactly as the first
run left it, because every satisfied tier is already a member of
achievedLevels after the first run. -/
theorem processLevelRewards_idempotent (w : World) (uid : Nat) :
    (processLevelRewards (processLevelRewards w uid).1 uid).1 = (processLevelRewards w uid).1 ∧
    ((processLevelRewards (processLevelRewards w uid).1 uid).2.map
      (fun r => r.newLevels)).getD [] = [] := by
  cases hu : findUser w uid with
  | none =>
      rw [plr_none hu]
      rw [plr_none hu]
      simp
  | some u =>
      have hid : u.id = uid := findUser_id hu
      obtain ⟨st, hst⟩ : ∃ st, plrSt w uid u = st := ⟨_, rfl⟩
      rw [plr_some hu]
      by_cases hnl : st.newLevels = []
      · have hW : plrWorld w uid u = w := by
          rw [plrWorld, hst, if_pos hnl]
        rw [hW, plr_some hu, hW]
        refine ⟨rfl, ?_⟩
        simp [plrRes, hst, hnl]
      · have hu2 : findUser (plrWorld w uid u) uid
            = some { u with balance := st.balance, achievedLevels := st.achievedLevels } := by
          rw [plrWorld, hst, if_neg hnl]
          exact find?_saveUser_self hu hid
        rw [plr_some hu2]
        have hach :
            ({ u with balance := st.balance, achievedLevels := st.achievedLevels }
              : UserR).achievedLevels = (plrSt w uid u).achievedLevels := by
          rw [hst]
        have hst2 := plrSt_second w uid u
          { u with balance := st.balance, achievedLevels := st.achievedLevels } hach
        constructor
        · show plrWorld (plrWorld w uid u) uid _ = plrWorld w uid u
          rw [plrWorld, hst2]
          simp
        · simp [plrRes, hst2]

/-- Claim C5: a withdrawal request for more than the current balance, made
outside the lock period, fails with the insufficient-balance error and
leaves the world untouched: the balance is unchanged, no Withdrawal record
is created and no Transaction is appended. -/
theorem createWithdrawal_insufficient_balance (w : World) (uid : Nat) (amount : ℚ)
    (s : WithdrawSettings) (now : Nat) (u : UserR)
    (henabled : s.withdrawalsEnabled = true)
    (hu : findUser w uid = some u)
    (hage : s.withdrawLockDays ≤ (accountAgeDays u.createdAt now : ℚ))
    (hins : u.balance < amount) :
    createWithdrawal w uid amount s now = (CWOutcome.insufficient, w) := by
  have hlock : ¬ ((accountAgeDays u.createdAt now : ℚ) < s.withdrawLockDays) :=
    not_lt.mpr hage
  rw [createWithdrawal, if_neg (by simp [henabled]), hu]
  simp only [hlock, false_and, if_neg, if_pos hins]
  simp

/-- Default withdrawal settings resolved by the createWithdrawal handler. -/
def defaultWSettings : WithdrawSettings :=
  { withdrawalsEnabled := true, withdrawLockAmount := 65, withdrawLockDays := 90 }

/-- A 100-day-old active user with balance 10. -/
def oldPoorUser : UserR :=
  { id := 7, balance := 10, totalDeposits := 10, totalWithdrawals := 0, isActive := true,
    registrationDepositVerified := true, achievedLevels := [], createdAt := 0,
    spinWheelLastUsed := none, spinWheelCount := 0 }

/-- A world holding only oldPoorUser. -/
def oldPoorWorld : World :=
  { users := [oldPoorUser], deposits := [], withdrawals := [], referrals := [],
    transactions := [] }

/-- Witness for createWithdrawal_insufficient_balance: the 100-day-old
account with balance 10 requests 50 at day 100 under default settings. -/
theorem createWithdrawal_insufficient_balance_witness :
    defaultWSettings.withdrawalsEnabled = true ∧
    findUser oldPoorWorld 7 = some oldPoorUser ∧
    defaultWSettings.withdrawLockDays ≤ (accountAgeDays oldPoorUser.createdAt 8640000000 : ℚ) ∧
    oldPoorUser.balance < 50 ∧
    createWithdrawal oldPoorWorld 7 50 defaultWSettings 8640000000
      = (CWOutcome.insufficient, oldPoorWorld) :=
  ⟨rfl, by decide, by norm_num [accountAgeDays, defaultWSettings, oldPoorUser],
   by norm_num [oldPoorUser],
   createWithdrawal_insufficient_balance oldPoorWorld 7 50 defaultWSettings 8640000000
     oldPoorUser rfl (by decide)
     (by norm_num [accountAgeDays, defaultWSettings, oldPoorUser])
     (by norm_num [oldPoorUser])⟩

/-- Placement-relevant projection of an edge: its referrer and side. -/
def refProj (r : ReferralR) : Nat × Side := (r.referrer, r.side)

lemma setFirst_refProj (l : List ReferralR) (uid : Nat) (b : Bool) :
    (setFirstInboundActive l uid b).map refProj = l.map refProj := by
  induction l with
  | nil => rfl
  | cons r rest ih =>
      by_cases hr : r.referred = uid
      · rw [setFirstInboundActive, if_pos hr]
        simp [refProj]
      · rw [setFirstInboundActive, if_neg hr]
        simp [ih]

/-- The edges of a sponsor alternate by creation order: the projection of
the edge list is exactly the alternating left/right pattern. -/
def altChain (sponsor : Nat) (l : List ReferralR) : Prop :=
  l.map refProj = (List.range l.length).map (fun i => (sponsor, sideForCount i))

lemma altChain_count {sponsor : Nat} {l : List ReferralR} (h : altChain sponsor l) :
    l.countP (fun r => decide (r.referrer = sponsor)) = l.length := by
  have h1 : l.countP (fun r => decide (r.referrer = sponsor))
      = (l.map refProj).countP (fun pr => decide (pr.1 = sponsor)) := by
    rw [List.countP_map]
    apply List.countP_congr
    intro r _
    simp [refProj]
  rw [h1, h, List.countP_map]
  have h2 : ∀ n : Nat, (List.range n).countP
      ((fun pr : Nat × Side => decide (pr.1 = sponsor)) ∘ (fun i => (sponsor, sideForCount i)))
      = (List.range n).length := by
    intro n
    apply List.countP_eq_length.mpr
    intro i _
    simp
  rw [h2, List.length_range]

lemma altChain_place {sponsor : Nat} {l : List ReferralR} (u : Nat)
    (h : altChain sponsor l) : altChain sponsor (placeReferral l sponsor u) := by
  rw [altChain, placeReferral, altChain_count h]
  simp only [List.map_append, List.length_append, List.map_cons, List.map_nil,
    List.length_cons, List.length_nil]
  rw [h]
  have hr : List.range (l.length + (0 + 1)) = List.range (l.length + 1) := by norm_num
  rw [hr, List.range_succ]
  simp [refProj]

lemma altChain_activate {sponsor : Nat} {l : List ReferralR} (u : Nat)
    (h : altChain sponsor l) : altChain sponsor (setFirstInboundActive l u true) := by
  have hlen : (setFirstInboundActive l u true).length = l.length := by
    have := congrArg List.length (setFirst_refProj l u true)
    simpa using this
  rw [altChain, setFirst_refProj, hlen]
  exact h

lemma altChain_run (sponsor : Nat) (ops : List RefOp) :
    altChain sponsor (runRefOps sponsor ops) := by
  rw [runRefOps]
  have h0 : altChain sponsor [] := by rfl
  generalize hl : ([] : List ReferralR) = l at h0
  clear hl
  induction ops generalizing l with
  | nil => simpa using h0
  | cons op rest ih =>
      rw [List.foldl_cons]
      apply ih
      cases op with
      | place u => exact altChain_place u h0
      | activate u => exact altChain_activate u h0

/-- Claim C4: for every sequence of referral placements under one sponsor,
interleaved arbitrarily with activations of referred users, the sides of
the resulting edges strictly alternate left, right, left, ... starting
with left: the i-th edge (0-based) is left exactly when i is even,
because the side is chosen from the parity of the count of all existing
edges of the sponsor, active or not. -/
theorem referral_sides_alternate (sponsor : Nat) (ops : List RefOp)
    (i : Fin (runRefOps sponsor ops).length) :
    ((runRefOps sponsor ops).get i).side
      = (if i.val % 2 = 0 then Side.left else Side.right) := by
  have h := altChain_run sponsor ops
  rw [altChain] at h
  have h2 := congrArg (fun l => l[i.val]?) h
  simp only [List.getElem?_map] at h2
  rw [List.getElem?_range i.isLt] at h2
  rw [List.getElem?_eq_getElem i.isLt] at h2
  simp only [Option.map_some', Option.some.injEq] at h2
  have h4 := congrArg Prod.snd h2
  rw [List.get_eq_getElem]
  simpa [refProj, sideForCount] using h4

lemma createWithdrawal_success (w : World) (uid : Nat) (amount : ℚ)
    (s : WithdrawSettings) (now : Nat) (u : UserR)
    (henabled : s.withdrawalsEnabled = true)
    (hu : findUser w uid = some u)
    (hage : s.withdrawLockDays ≤ (accountAgeDays u.createdAt now : ℚ))
    (hsuff : amount ≤ u.balance) :
    createWithdrawal w uid amount s now =
      (CWOutcome.created,
       { w with
           withdrawals := w.withdrawals ++
             [{ id := w.withdrawals.length, user := uid, amount := amount,
                status := WStatus.pending }],
           users := saveUser w.users { u with balance := u.balance - amount },
           transactions := w.transactions ++
             [{ user := uid, ttype := TxType.withdrawal, amount := amount,
                status := TxStatus.pending }] }) := by
  have hlock : ¬ ((accountAgeDays u.createdAt now : ℚ) < s.withdrawLockDays) :=
    not_lt.mpr hage
  rw [createWithdrawal, if_neg (by simp [henabled]), hu]
  simp only [hlock, false_and, if_neg]
  rw [if_neg (not_lt.mpr hsuff)]
  rfl

lemma updateWithdrawal_reject (w : World) (wid : Nat) (v : WithdrawalR) (u : UserR)
    (hv : findWithdrawal w wid = some v)
    (hu : findUser w v.user = some u) :
    updateWithdrawal w wid WStatus.rejected =
      (UWOutcome.done,
       { w with
           withdrawals := saveWithdrawal w.withdrawals { v with status := WStatus.rejected },
           users := saveUser w.users { u with balance := u.balance + v.amount },
           transactions := txUpdateFirst w.transactions v.user TxType.withdrawal v.amount
             TxStatus.rejected }) := by
  rw [updateWithdrawal, hv]
  have hu2 : findUser
      { w with withdrawals := saveWithdrawal w.withdrawals { v with status := WStatus.rejected } }
      v.user = some u := hu
  simp only [hu2]
  rfl

/-- The world produced by a successful createWithdrawal call. -/
def cwWorld (w : World) (uid : Nat) (amount : ℚ) (u : UserR) : World :=
  { w with
      withdrawals := w.withdrawals ++
        [{ id := w.withdrawals.length, user := uid, amount := amount,
           status := WStatus.pending }],
      users := saveUser w.users { u with balance := u.balance - amount },
      transactions := w.transactions ++
        [{ user := uid, ttype := TxType.withdrawal, amount := amount,
           status := TxStatus.pending }] }

lemma createWithdrawal_success_world (w : World) (uid : Nat) (amount : ℚ)
    (s : WithdrawSettings) (now : Nat) (u : UserR)
    (henabled : s.withdrawalsEnabled = true)
    (hu : findUser w uid = some u)
    (hage : s.withdrawLockDays ≤ (accountAgeDays u.createdAt now : ℚ))
    (hsuff : amount ≤ u.balance) :
    createWithdrawal w uid amount s now = (CWOutcome.created, cwWorld w uid amount u) := by
  rw [createWithdrawal_success w uid amount s now u henabled hu hage hsuff, cwWorld]

/-- Claim C6: a withdrawal that was created and debited at request time,
when later rejected by an administrator, credits back exactly its amount —
the balance returns to its pre-debit value — and the matching pending
withdrawal transaction (unique by hypothesis) is marked rejected. -/
theorem withdrawal_reject_restores_balance (w : World) (uid : Nat) (amount : ℚ)
    (s : WithdrawSettings) (now : Nat) (u : UserR)
    (henabled : s.withdrawalsEnabled = true)
    (hu : findUser w uid = some u)
    (hage : s.withdrawLockDays ≤ (accountAgeDays u.createdAt now : ℚ))
    (hsuff : amount ≤ u.balance)
    (hfresh : w.withdrawals.all (fun v => decide (v.id ≠ w.withdrawals.length)) = true)
    (hnotx : w.transactions.all (fun t => !(txMatches uid TxType.withdrawal amount t)) = true) :
    (updateWithdrawal (createWithdrawal w uid amount s now).2 w.withdrawals.length
        WStatus.rejected).1 = UWOutcome.done ∧
    ((findUser (updateWithdrawal (createWithdrawal w uid amount s now).2 w.withdrawals.length
        WStatus.rejected).2 uid).map (fun x => x.balance)) = some u.balance ∧
    (updateWithdrawal (createWithdrawal w uid amount s now).2 w.withdrawals.length
        WStatus.rejected).2.transactions
      = w.transactions ++ [{ user := uid, ttype := TxType.withdrawal, amount := amount,
                             status := TxStatus.rejected }] := by
  have hid : u.id = uid := findUser_id hu
  have hfnone : w.withdrawals.find? (fun v => v.id = w.withdrawals.length) = none := by
    apply List.find?_eq_none.mpr
    intro x hx
    have h2 := List.all_eq_true.mp hfresh x hx
    simpa using h2
  have hv : findWithdrawal (cwWorld w uid amount u) w.withdrawals.length
      = some { id := w.withdrawals.length, user := uid, amount := amount,
               status := WStatus.pending } := by
    show ((cwWorld w uid amount u).withdrawals).find? (fun v => v.id = w.withdrawals.length)
      = some { id := w.withdrawals.length, user := uid, amount := amount,
               status := WStatus.pending }
    rw [cwWorld]
    show (w.withdrawals ++
        [({ id := w.withdrawals.length, user := uid, amount := amount,
            status := WStatus.pending } : WithdrawalR)]).find?
        (fun v => v.id = w.withdrawals.length)
      = some { id := w.withdrawals.length, user := uid, amount := amount,
               status := WStatus.pending }
    rw [find?_append_none hfnone]
    exact List.find?_cons_of_pos _ (by simp)
  have hu1 : findUser (cwWorld w uid amount u) uid
      = some { u with balance := u.balance - amount } := by
    show (saveUser w.users { u with balance := u.balance - amount }).find?
        (fun x => x.id = uid) = some { u with balance := u.balance - amount }
    exact find?_saveUser_self hu hid
  have hR := updateWithdrawal_reject _ _ _ _ hv hu1
  rw [createWithdrawal_success_world w uid amount s now u henabled hu hage hsuff]
  dsimp only
  rw [hR]
  refine ⟨rfl, ?_, ?_⟩
  · have hu2 := @find?_saveUser_self (cwWorld w uid amount u).users uid
      { u with balance := u.balance - amount }
      { u with balance := u.balance - amount + amount } hu1 hid
    have hfind : findUser
        { cwWorld w uid amount u with
            withdrawals := saveWithdrawal (cwWorld w uid amount u).withdrawals
              { id := w.withdrawals.length, user := uid, amount := amount,
                status := WStatus.rejected },
            users := saveUser (cwWorld w uid amount u).users
              { u with balance := u.balance - amount + amount },
            transactions := txUpdateFirst (cwWorld w uid amount u).transactions uid
              TxType.withdrawal amount TxStatus.rejected } uid
        = some { u with balance := u.balance - amount + amount } := hu2
    rw [show (({ u with balance := u.balance - amount } : UserR).balance + amount)
        = u.balance - amount + amount from rfl] at hR ⊢
    rw [hfind]
    rw [Option.map_some', Option.some_inj]
    show u.balance - amount + amount = u.balance
    ring
  · show txUpdateFirst ((cwWorld w uid amount u).transactions) uid
        TxType.withdrawal amount TxStatus.rejected
      = w.transactions ++ [{ user := uid, ttype := TxType.withdrawal, amount := amount,
                             status := TxStatus.rejected }]
    rw [cwWorld]
    show txUpdateFirst (w.transactions ++
        [({ user := uid, ttype := TxType.withdrawal, amount := amount,
            status := TxStatus.pending } : TxR)]) uid TxType.withdrawal amount TxStatus.rejected
      = w.transactions ++ [{ user := uid, ttype := TxType.withdrawal, amount := amount,
                             status := TxStatus.rejected }]
    rw [txUpdateFirst_append [] _ hnotx (by simp [txMatches])]

/-- A 100-day-old active user with balance 100. -/
def richUser : UserR :=
  { id := 3, balance := 100, totalDeposits := 100, totalWithdrawals := 0, isActive := true,
    registrationDepositVerified := true, achievedLevels := [], createdAt := 0,
    spinWheelLastUsed := none, spinWheelCount := 0 }

/-- A world holding only richUser. -/
def richWorld : World :=
  { users := [richUser], deposits := [], withdrawals := [], referrals := [],
    transactions := [] }

/-- Witness for withdrawal_reject_restores_balance: richUser withdraws 40
at day 100, the admin rejects, and the balance is back to 100. -/
theorem withdrawal_reject_restores_balance_witness :
    defaultWSettings.withdrawalsEnabled = true ∧
    findUser richWorld 3 = some richUser ∧
    defaultWSettings.withdrawLockDays ≤ (accountAgeDays richUser.createdAt 8640000000 : ℚ) ∧
    (40 : ℚ) ≤ richUser.balance ∧
    richWorld.withdrawals.all (fun v => decide (v.id ≠ richWorld.withdrawals.length)) = true ∧
    richWorld.transactions.all (fun t => !(txMatches 3 TxType.withdrawal 40 t)) = true ∧
    ((updateWithdrawal (createWithdrawal richWorld 3 40 defaultWSettings 8640000000).2
        richWorld.withdrawals.length WStatus.rejected).1 = UWOutcome.done ∧
     ((findUser (updateWithdrawal (createWithdrawal richWorld 3 40 defaultWSettings
        8640000000).2 richWorld.withdrawals.length WStatus.rejected).2 3).map
        (fun x => x.balance)) = some richUser.balance ∧
     (updateWithdrawal (createWithdrawal richWorld 3 40 defaultWSettings 8640000000).2
        richWorld.withdrawals.length WStatus.rejected).2.transactions
       = richWorld.transactions ++ [{ user := 3, ttype := TxType.withdrawal, amount := 40,
                                      status := TxStatus.rejected }]) :=
  ⟨rfl, by decide, by norm_num [accountAgeDays, defaultWSettings, richUser],
   by norm_num [richUser], by decide, by decide,
   withdrawal_reject_restores_balance richWorld 3 40 defaultWSettings 8640000000 richUser
     rfl (by decide) (by norm_num [accountAgeDays, defaultWSettings, richUser])
     (by norm_num [richUser]) (by decide) (by decide)⟩

/-- Membership in the defined tier levels 1..12. -/
def levelInRange (x : Nat) : Bool :=
  decide (1 ≤ x) && decide (x ≤ 12)

lemma LEVEL_REWARDS_levels_le : ∀ t ∈ LEVEL_REWARDS, t.level ≤ 12 := by decide

lemma plrSt_achieved (w : World) (uid : Nat) (u : UserR) :
    ∃ Δ, (plrSt w uid u).achievedLevels = u.achievedLevels ++ Δ ∧
      Δ.all levelInRange = true := by
  rw [plrSt, runTierLoop]
  obtain ⟨Δ, hΔ, hmem⟩ := tierFold_achieved LEVEL_REWARDS uid
    (countRef w.referrals uid Side.left) (countRef w.referrals uid Side.right)
    { balance := u.balance, achievedLevels := u.achievedLevels, newLevels := [], txns := [] }
  refine ⟨Δ, hΔ, List.all_eq_true.mpr ?_⟩
  intro x hx
  obtain ⟨t, ht, hxt, h0⟩ := hmem x hx
  have hle := LEVEL_REWARDS_levels_le t ht
  subst hxt
  simp [levelInRange]
  omega

lemma plrWorld_find_other (w : World) (t uid : Nat) (ut : UserR)
    (hne : uid ≠ ut.id) :
    findUser (plrWorld w t ut) uid = findUser w uid := by
  rw [plrWorld]
  by_cases h : (plrSt w t ut).newLevels = []
  · rw [if_pos h]
  · rw [if_neg h]
    exact find?_saveUser_other hne

lemma plr_achieved_mono (w : World) (t uid : Nat) (u : UserR)
    (hu : findUser w uid = some u) :
    ∃ u1 Δ, findUser (processLevelRewards w t).1 uid = some u1 ∧
      u1.achievedLevels = u.achievedLevels ++ Δ ∧ Δ.all levelInRange = true := by
  cases hut : findUser w t with
  | none =>
      rw [plr_none hut]
      exact ⟨u, [], hu, by simp, by simp⟩
  | some ut =>
      rw [plr_some hut]
      by_cases hq : uid = t
      · subst hq
        have huu : ut = u := by
          rw [hu] at hut
          exact (Option.some_inj.mp hut).symm
        subst huu
        by_cases hnl : (plrSt w uid ut).newLevels = []
        · have hW : plrWorld w uid ut = w := by rw [plrWorld, if_pos hnl]
          refine ⟨ut, [], ?_, by simp, by simp⟩
          show findUser (plrWorld w uid ut) uid = some ut
          rw [hW]
          exact hu
        · have hW : plrWorld w uid ut
              = { w with
                    users := saveUser w.users
                      { ut with balance := (plrSt w uid ut).balance,
                                achievedLevels := (plrSt w uid ut).achievedLevels },
                    transactions := w.transactions ++ (plrSt w uid ut).txns } := by
            rw [plrWorld, if_neg hnl]
          obtain ⟨Δ, hΔ, hall⟩ := plrSt_achieved w uid ut
          refine ⟨{ ut with balance := (plrSt w uid ut).balance,
                            achievedLevels := (plrSt w uid ut).achievedLevels }, Δ, ?_, hΔ, hall⟩
          show findUser (plrWorld w uid ut) uid = some _
          rw [hW]
          apply find?_saveUser_self hu
          show ut.id = uid
          exact findUser_id hu
      · refine ⟨u, [], ?_, by simp, by simp⟩
        show findUser (plrWorld w t ut) uid = some u
        have hne : uid ≠ ut.id := by
          rw [findUser_id hut]
          exact hq
        rw [plrWorld_find_other w t uid ut hne]
        exact hu

/-- Claim C8: across any history of level-reward evaluations — internal
processLevelRewards calls and user-initiated checkLevelRewards calls, for
arbitrary targets and with the referral edges changing arbitrarily between
calls — a user's achievedLevels only grows: the prior list is a prefix of
the final list and every element ever appended is one of the defined tier
levels 1..12. -/
theorem achievedLevels_monotone (w : World) (uid : Nat) (u : UserR) (ops : List EvalOp)
    (hu : findUser w uid = some u) :
    ∃ u1 Δ, findUser (runEvalSeq w ops) uid = some u1 ∧
      u1.achievedLevels = u.achievedLevels ++ Δ ∧ Δ.all levelInRange = true := by
  induction ops generalizing w u with
  | nil => exact ⟨u, [], hu, by simp, by simp⟩
  | cons op rest ih =>
      have hstep : ∀ w2 : World, runEvalSeq w2 (op :: rest) = runEvalSeq (evalStep w2 op) rest := by
        intro w2
        rw [runEvalSeq, runEvalSeq, List.foldl_cons]
      rw [hstep]
      cases op with
      | internal t refs =>
          have hu0 : findUser { w with referrals := refs } uid = some u := hu
          obtain ⟨u1, Δ1, hf1, ha1, hr1⟩ := plr_achieved_mono { w with referrals := refs } t uid u hu0
          obtain ⟨u2, Δ2, hf2, ha2, hr2⟩ := ih _ _ hf1
          refine ⟨u2, Δ1 ++ Δ2, hf2, ?_, ?_⟩
          · rw [ha2, ha1, List.append_assoc]
          · rw [List.all_append, hr1, hr2]
            rfl
      | userCheck t refs =>
          have hu0 : findUser { w with referrals := refs } uid = some u := hu
          have hclr : evalStep w (EvalOp.userCheck t refs)
              = (processLevelRewards { w with referrals := refs } t).1 := by
            rw [evalStep, clr_eq_plr]
          rw [hclr]
          obtain ⟨u1, Δ1, hf1, ha1, hr1⟩ := plr_achieved_mono { w with referrals := refs } t uid u hu0
          obtain ⟨u2, Δ2, hf2, ha2, hr2⟩ := ih _ _ hf1
          refine ⟨u2, Δ1 ++ Δ2, hf2, ?_, ?_⟩
          · rw [ha2, ha1, List.append_assoc]
          · rw [List.all_append, hr1, hr2]
            rfl

/-- Witness for achievedLevels_monotone: one internal evaluation targeting
richUser with no active edges. -/
theorem achievedLevels_monotone_witness :
    findUser richWorld 3 = some richUser ∧
    (∃ u1 Δ, findUser (runEvalSeq richWorld [EvalOp.internal 3 []]) 3 = some u1 ∧
      u1.achievedLevels = richUser.achievedLevels ++ Δ ∧ Δ.all levelInRange = true) :=
  ⟨by decide, achievedLevels_monotone richWorld 3 richUser [EvalOp.internal 3 []] (by decide)⟩

lemma plrSt_eq (w : World) (t : Nat) (u : UserR) :
    plrSt w t u = runTierLoop t (countRef w.referrals t Side.left)
      (countRef w.referrals t Side.right) u := by
  rw [plrSt]

lemma plrSt_nil (w : World) (t : Nat) (u : UserR)
    (h : (plrSt w t u).newLevels = []) :
    plrSt w t u = { balance := u.balance, achievedLevels := u.achievedLevels,
                    newLevels := [], txns := [] } := by
  rw [plrSt, runTierLoop] at h ⊢
  obtain ⟨P, hP, hnil⟩ := tierFold_no_new_eq t (countRef w.referrals t Side.left)
    (countRef w.referrals t Side.right)
    { balance := u.balance, achievedLevels := u.achievedLevels, newLevels := [], txns := [] }
  rw [h] at hP
  apply hnil
  simpa using hP.symm

lemma plrSt_txns (w : World) (t : Nat) (u : UserR) :
    (plrSt w t u).txns.all (fun x => decide (x.ttype = TxType.levelReward)) = true := by
  rw [plrSt, runTierLoop]
  obtain ⟨L, hL, hall⟩ := tierFold_txns_level_reward LEVEL_REWARDS t
    (countRef w.referrals t Side.left) (countRef w.referrals t Side.right)
    { balance := u.balance, achievedLevels := u.achievedLevels, newLevels := [], txns := [] }
  rw [hL]
  simpa using hall

lemma plr_fst {w : World} {t : Nat} {ut : UserR} (hut : findUser w t = some ut) :
    (processLevelRewards w t).1 = plrWorld w t ut := by
  rw [plr_some hut]

lemma plr_find_target {w : World} {t : Nat} {ut : UserR} (hut : findUser w t = some ut) :
    findUser (plrWorld w t ut) t
      = some { ut with balance := (plrSt w t ut).balance,
                       achievedLevels := (plrSt w t ut).achievedLevels } := by
  by_cases hnl : (plrSt w t ut).newLevels = []
  · rw [plrWorld, if_pos hnl]
    rw [plrSt_nil w t ut hnl]
    exact hut
  · rw [plrWorld, if_neg hnl]
    apply find?_saveUser_self hut
    show ut.id = t
    exact findUser_id hut

lemma plrWorld_transactions (w : World) (t : Nat) (ut : UserR) :
    ∃ L, (plrWorld w t ut).transactions = w.transactions ++ L ∧
      L.all (fun x => decide (x.ttype = TxType.levelReward)) = true := by
  by_cases hnl : (plrSt w t ut).newLevels = []
  · rw [plrWorld, if_pos hnl]
    exact ⟨[], by simp, by simp⟩
  · rw [plrWorld, if_neg hnl]
    exact ⟨(plrSt w t ut).txns, rfl, plrSt_txns w t ut⟩

/-- User state after the credit-and-activate step of the approval cascade. -/
def vrdU1 (u : UserR) (d : DepositR) : UserR :=
  { u with isActive := true, registrationDepositVerified := true,
           balance := u.balance + d.amount,
           totalDeposits := u.totalDeposits + d.amount }

/-- World state right after the deposit save, the user credit and the
referral-edge flip of the approval cascade (steps one to three). -/
def vrdW3 (w : World) (d : DepositR) (u : UserR) : World :=
  { w with deposits := saveDeposit w.deposits { d with status := DepStatus.approved },
           users := saveUser w.users (vrdU1 u d),
           referrals := setFirstInboundActive w.referrals d.user true }

/-- World state after the level-reward evaluation step of the cascade. -/
def vrdW4 (w : World) (d : DepositR) (u : UserR) : World :=
  match firstInbound (setFirstInboundActive w.referrals d.user true) d.user with
  | some r => (processLevelRewards (vrdW3 w d u) r.referrer).1
  | none => vrdW3 w d u

/-- Final world of the approval cascade: the matching pending deposit
transaction is completed after the level-reward evaluation ran. -/
def vrdResult (w : World) (d : DepositR) (u : UserR) : World :=
  { vrdW4 w d u with
      transactions := txUpdateFirst (vrdW4 w d u).transactions d.user TxType.deposit
        d.amount TxStatus.completed }

lemma verify_approved_char (w : World) (depId : Nat) (d : DepositR) (u : UserR)
    (hd : findDeposit w depId = some d)
    (hreg : d.isRegistrationDeposit = true)
    (hu : findUser w d.user = some u) :
    verifyRegistrationDeposit w depId DepStatus.approved
      = (VerifyOutcome.done, vrdResult w d u) := by
  have hu1 : findUser
      { w with deposits := saveDeposit w.deposits { d with status := DepStatus.approved } }
      d.user = some u := hu
  rw [verifyRegistrationDeposit]
  simp only [hd]
  rw [if_neg (by simp [hreg])]
  simp only [hu1]
  show (VerifyOutcome.done, vrdResult w d u) = (VerifyOutcome.done, vrdResult w d u)
  rfl

attribute [irreducible] vrdW4

/-- Claim C7: when an administrator approves a registration deposit, the
cascade credits the user and sets both activation flags, flips the first
inbound referral edge of the user to active, and only then runs the
level-reward evaluation for the sponsor of that edge, so the evaluation
observes the just-flipped edge: the sponsor count on the side of that edge
is one more than before the flip, and the sponsor's resulting state is the
tier evaluation at the post-flip counts; afterwards the matching pending
deposit transaction (unique by hypothesis) is marked completed, while the
transactions appended before it by the evaluation are level rewards. -/
theorem activation_cascade_order (w : World) (depId : Nat) (d : DepositR) (u us : UserR)
    (e : ReferralR) (T : List TxR) (tx0 : TxR)
    (hd : findDeposit w depId = some d)
    (hreg : d.isRegistrationDeposit = true)
    (hu : findUser w d.user = some u)
    (he : firstInbound w.referrals d.user = some e)
    (hact : e.isActive = false)
    (hsne : e.referrer ≠ d.user)
    (hus : findUser w e.referrer = some us)
    (htxs : w.transactions = T ++ [tx0])
    (hT : T.all (fun t => !(txMatches d.user TxType.deposit d.amount t)) = true)
    (htx0 : txMatches d.user TxType.deposit d.amount tx0 = true) :
    (verifyRegistrationDeposit w depId DepStatus.approved).1 = VerifyOutcome.done ∧
    findUser (verifyRegistrationDeposit w depId DepStatus.approved).2 d.user
      = some (vrdU1 u d) ∧
    (verifyRegistrationDeposit w depId DepStatus.approved).2.referrals
      = setFirstInboundActive w.referrals d.user true ∧
    countRef (setFirstInboundActive w.referrals d.user true) e.referrer e.side
      = countRef w.referrals e.referrer e.side + 1 ∧
    findUser (verifyRegistrationDeposit w depId DepStatus.approved).2 e.referrer
      = some { us with
          balance := (runTierLoop e.referrer
            (countRef (setFirstInboundActive w.referrals d.user true) e.referrer Side.left)
            (countRef (setFirstInboundActive w.referrals d.user true) e.referrer Side.right)
            us).balance,
          achievedLevels := (runTierLoop e.referrer
            (countRef (setFirstInboundActive w.referrals d.user true) e.referrer Side.left)
            (countRef (setFirstInboundActive w.referrals d.user true) e.referrer Side.right)
            us).achievedLevels } ∧
    (∃ L, (verifyRegistrationDeposit w depId DepStatus.approved).2.transactions
        = T ++ ({ tx0 with status := TxStatus.completed } :: L) ∧
      L.all (fun x => decide (x.ttype = TxType.levelReward)) = true) := by
  have hid1 : u.id = d.user := findUser_id hu
  have hids : us.id = e.referrer := findUser_id hus
  have hfI : firstInbound (setFirstInboundActive w.referrals d.user true) d.user
      = some { e with isActive := true } := firstInbound_setFirst true he
  have hW4 : vrdW4 w d u = (processLevelRewards (vrdW3 w d u) e.referrer).1 := by
    rw [vrdW4, hfI]
  have hus3 : findUser (vrdW3 w d u) e.referrer = some us := by
    show (saveUser w.users (vrdU1 u d)).find? (fun x => x.id = e.referrer) = some us
    rw [find?_saveUser_other (by rw [show (vrdU1 u d).id = d.user from hid1]; exact hsne)]
    exact hus
  have hW4p : vrdW4 w d u = plrWorld (vrdW3 w d u) e.referrer us := by
    rw [hW4, plr_fst hus3]
  rw [verify_approved_char w depId d u hd hreg hu]
  refine ⟨rfl, ?_, ?_, ?_, ?_, ?_⟩
  · show findUser (vrdW4 w d u) d.user = some (vrdU1 u d)
    rw [hW4p]
    rw [plrWorld_find_other _ _ _ _ (by rw [hids]; exact hsne.symm)]
    show (saveUser w.users (vrdU1 u d)).find? (fun x => x.id = d.user) = some (vrdU1 u d)
    apply find?_saveUser_self hu
    show u.id = d.user
    exact hid1
  · show (vrdW4 w d u).referrals = setFirstInboundActive w.referrals d.user true
    rw [hW4p, plrWorld_referrals]
    rfl
  · exact countRef_setFirst_plus_one he hact
  · show findUser (vrdW4 w d u) e.referrer = _
    rw [hW4p, plr_find_target hus3, plrSt_eq]
    rfl
  · obtain ⟨L, hL, hall⟩ := plrWorld_transactions (vrdW3 w d u) e.referrer us
    have htr : (vrdW4 w d u).transactions = w.transactions ++ L := by
      rw [hW4p, hL]
      rfl
    refine ⟨L, ?_, hall⟩
    show txUpdateFirst (vrdW4 w d u).transactions d.user TxType.deposit d.amount
        TxStatus.completed = T ++ ({ tx0 with status := TxStatus.completed } :: L)
    rw [htr, htxs, List.append_assoc, List.singleton_append]
    exact txUpdateFirst_append L TxStatus.completed hT htx0

/-- Sponsor with one active left referral awaiting the right one. -/
def cascadeSponsor : UserR :=
  { id := 10, balance := 0, totalDeposits := 0, totalWithdrawals := 0, isActive := true,
    registrationDepositVerified := true, achievedLevels := [], createdAt := 0,
    spinWheelLastUsed := none, spinWheelCount := 0 }

/-- Newly registered user whose registration deposit is pending. -/
def cascadeNewUser : UserR :=
  { id := 3, balance := 0, totalDeposits := 0, totalWithdrawals := 0, isActive := false,
    registrationDepositVerified := false, achievedLevels := [], createdAt := 0,
    spinWheelLastUsed := none, spinWheelCount := 0 }

/-- The inactive right edge of the pending user under sponsor 10. -/
def cascadeEdge : ReferralR :=
  { referrer := 10, referred := 3, side := Side.right, isActive := false }

/-- World about to run the approval cascade for deposit 0 of user 3. -/
def cascadeWorld : World :=
  { users := [cascadeSponsor, cascadeNewUser],
    deposits := [{ id := 0, user := 3, amount := 60, status := DepStatus.pending,
                   isRegistrationDeposit := true }],
    withdrawals := [],
    referrals := [{ referrer := 10, referred := 2, side := Side.left, isActive := true },
                  cascadeEdge],
    transactions := [{ user := 3, ttype := TxType.deposit, amount := 60,
                       status := TxStatus.pending }] }

/-- The pending registration deposit of cascadeWorld. -/
def cascadeDeposit : DepositR :=
  { id := 0, user := 3, amount := 60, status := DepStatus.pending,
    isRegistrationDeposit := true }

/-- The pending deposit transaction of cascadeWorld. -/
def cascadeTx : TxR :=
  { user := 3, ttype := TxType.deposit, amount := 60, status := TxStatus.pending }

/-- Witness for activation_cascade_order at cascadeWorld. -/
theorem activation_cascade_order_witness :
    findDeposit cascadeWorld 0 = some cascadeDeposit ∧
    findUser cascadeWorld cascadeDeposit.user = some cascadeNewUser ∧
    firstInbound cascadeWorld.referrals cascadeDeposit.user = some cascadeEdge ∧
    txMatches cascadeDeposit.user TxType.deposit cascadeDeposit.amount cascadeTx = true ∧
    ((verifyRegistrationDeposit cascadeWorld 0 DepStatus.approved).1 = VerifyOutcome.done ∧
     findUser (verifyRegistrationDeposit cascadeWorld 0 DepStatus.approved).2
       cascadeDeposit.user = some (vrdU1 cascadeNewUser cascadeDeposit) ∧
     (verifyRegistrationDeposit cascadeWorld 0 DepStatus.approved).2.referrals
       = setFirstInboundActive cascadeWorld.referrals cascadeDeposit.user true ∧
     countRef (setFirstInboundActive cascadeWorld.referrals cascadeDeposit.user true)
         cascadeEdge.referrer cascadeEdge.side
       = countRef cascadeWorld.referrals cascadeEdge.referrer cascadeEdge.side + 1 ∧
     findUser (verifyRegistrationDeposit cascadeWorld 0 DepStatus.approved).2
         cascadeEdge.referrer
       = some { cascadeSponsor with
           balance := (runTierLoop cascadeEdge.referrer
             (countRef (setFirstInboundActive cascadeWorld.referrals cascadeDeposit.user true)
               cascadeEdge.referrer Side.left)
             (countRef (setFirstInboundActive cascadeWorld.referrals cascadeDeposit.user true)
               cascadeEdge.referrer Side.right) cascadeSponsor).balance,
           achievedLevels := (runTierLoop cascadeEdge.referrer
             (countRef (setFirstInboundActive cascadeWorld.referrals cascadeDeposit.user true)
               cascadeEdge.referrer Side.left)
             (countRef (setFirstInboundActive cascadeWorld.referrals cascadeDeposit.user true)
               cascadeEdge.referrer Side.right) cascadeSponsor).achievedLevels } ∧
     (∃ L, (verifyRegistrationDeposit cascadeWorld 0 DepStatus.approved).2.transactions
         = [] ++ ({ cascadeTx with status := TxStatus.completed } :: L) ∧
       L.all (fun x => decide (x.ttype = TxType.levelReward)) = true)) :=
  ⟨by decide, by decide, by decide, by decide,
   activation_cascade_order cascadeWorld 0 cascadeDeposit cascadeNewUser cascadeSponsor
     cascadeEdge [] cascadeTx (by decide) (by decide) (by decide) (by decide) (by decide)
     (by decide) (by decide) (by decide) (by decide) (by decide)⟩

lemma round4_mono {x y : ℚ} (h : x ≤ y) : round4 x ≤ round4 y := by
  rw [round4, round4]
  apply (div_le_div_right (by norm_num : (0:ℚ) < 10000)).mpr
  apply Int.cast_le.mpr
  rw [round_eq, round_eq]
  apply Int.floor_le_floor
  have h2 : x * 10000 ≤ y * 10000 := by nlinarith
  linarith

lemma round4_fix (a : ℤ) : round4 ((a : ℚ) / 10000) = a / 10000 := by
  rw [round4]
  have h : ((a : ℚ) / 10000) * 10000 = a := by field_simp
  rw [h, round_intCast]

/-- Claim C10: a spin not rejected by the once-per-day gate credits an
amount computed entirely server-side: it is the same for any value of the
client-supplied reward field (equal server randomness), and lies in the
closed range of the effective minDailyReward / maxDailyReward settings
(resolved through the or-default idiom with defaults 0.5 and 0.8), for any
effective bounds that are ordered and expressible with four decimals. -/
theorem spinWheel_server_side_reward (c₁ c₂ : ℚ) (u : UserR) (txns : List TxR)
    (mn mx : Option ℚ) (r : ℚ) (now startOfToday : Nat)
    (hgate : spinGateOpen u.spinWheelLastUsed startOfToday = true)
    (hr0 : 0 ≤ r) (hr1 : r ≤ 1)
    (hmm : jsOrQ mn (1 / 2) ≤ jsOrQ mx (4 / 5))
    (hm4 : ∃ a : ℤ, jsOrQ mn (1 / 2) = (a : ℚ) / 10000)
    (hx4 : ∃ b : ℤ, jsOrQ mx (4 / 5) = (b : ℚ) / 10000) :
    spinWheel c₁ u txns mn mx r now startOfToday
      = spinWheel c₂ u txns mn mx r now startOfToday ∧
    ∃ rw1 u1 t1, spinWheel c₁ u txns mn mx r now startOfToday = some (rw1, u1, t1) ∧
      jsOrQ mn (1 / 2) ≤ rw1 ∧ rw1 ≤ jsOrQ mx (4 / 5) ∧
      u1.balance = u.balance + rw1 := by
  constructor
  · rfl
  · rw [spinWheel, if_neg (by rw [hgate]; simp)]
    refine ⟨_, _, _, rfl, ?_, ?_, rfl⟩
    · have hv : jsOrQ mn (1 / 2) ≤ jsOrQ mn (1 / 2)
          + r * (jsOrQ mx (4 / 5) - jsOrQ mn (1 / 2)) := by
        nlinarith
      obtain ⟨a, ha⟩ := hm4
      calc jsOrQ mn (1 / 2) = round4 (jsOrQ mn (1 / 2)) := by rw [ha, round4_fix]
        _ ≤ _ := round4_mono hv
    · have hv : jsOrQ mn (1 / 2) + r * (jsOrQ mx (4 / 5) - jsOrQ mn (1 / 2))
          ≤ jsOrQ mx (4 / 5) := by
        nlinarith
      obtain ⟨b, hb⟩ := hx4
      calc round4 (jsOrQ mn (1 / 2) + r * (jsOrQ mx (4 / 5) - jsOrQ mn (1 / 2)))
          ≤ round4 (jsOrQ mx (4 / 5)) := round4_mono hv
        _ = jsOrQ mx (4 / 5) := by rw [hb, round4_fix]

/-- Witness for spinWheel_server_side_reward: two spins differing only in
the client-supplied reward (5 versus 999), default bounds, random draw
one half. -/
theorem spinWheel_server_side_reward_witness :
    spinGateOpen richUser.spinWheelLastUsed 0 = true ∧
    (0 : ℚ) ≤ 1 / 2 ∧ (1 : ℚ) / 2 ≤ 1 ∧
    jsOrQ none (1 / 2) ≤ jsOrQ none (4 / 5) ∧
    (spinWheel 5 richUser [] none none (1 / 2) 0 0
       = spinWheel 999 richUser [] none none (1 / 2) 0 0 ∧
     ∃ rw1 u1 t1, spinWheel 5 richUser [] none none (1 / 2) 0 0 = some (rw1, u1, t1) ∧
       jsOrQ none (1 / 2) ≤ rw1 ∧ rw1 ≤ jsOrQ none (4 / 5) ∧
       u1.balance = richUser.balance + rw1) :=
  ⟨rfl, by norm_num, by norm_num, by norm_num [jsOrQ],
   spinWheel_server_side_reward 5 999 richUser [] none none (1 / 2) 0 0 rfl
     (by norm_num) (by norm_num) (by norm_num [jsOrQ])
     ⟨5000, by norm_num [jsOrQ]⟩ ⟨8000, by norm_num [jsOrQ]⟩⟩
